import Mathlib

/-!
# Verification of the Monopoly landing-probability simulator

Shallow embedding of the repository's core modules:

* `board.py`     — space classification constants,
* `utils/cards.py`  — card effects and the two decks,
* `utils/player.py` — player state, jail logic, turn resolution,
* `utils/simulation.py` — the Monte Carlo aggregation loop.

Randomness (the Python `random` module) is made explicit: dice rolls
become a stream of pairs supplied per turn, and each call to
`random.shuffle` becomes an application of the next function in a stream
of shuffle functions; well-formedness hypotheses require those functions
to produce permutations, which covers every behaviour of the original.
Python's unbounded recursion in `_process_landing` is embedded with an
explicit fuel parameter: `none` models a computation that would recurse
deeper than the supplied fuel.
-/

namespace Monopoly

/-! ## Board constants (`board.py`) -/

def CHANCE_SPACES : List Nat := [7, 22, 36]

def COMMUNITY_CHEST_SPACES : List Nat := [2, 17, 33]

def RAILROAD_SPACES : List Nat := [5, 15, 25, 35]

def UTILITY_SPACES : List Nat := [12, 28]

def GO_TO_JAIL_SPACE : Nat := 30

def JAIL_SPACE : Nat := 10

def GO_SPACE : Nat := 0

def is_chance (space : Nat) : Bool := CHANCE_SPACES.contains space

def is_community_chest (space : Nat) : Bool := COMMUNITY_CHEST_SPACES.contains space

/-! ## Cards (`utils/cards.py`)

The Python class hierarchy (`Card`, `AdvanceToCard`, `GoToJailCard`,
`GoBackCard`, `NearestRailroadCard`, `NearestUtilityCard`) is a closed
set of variants; each subclass overrides `apply`. -/

inductive Card where
  | noOp : Card
  | advanceTo (target_space : Nat) : Card
  | goToJail : Card
  | goBack : Card
  | nearestRailroad : Card
  | nearestUtility : Card
deriving DecidableEq, Repr

/-- `affects_position` attribute: `False` for the base no-movement card,
`True` for every movement card. -/
def Card.affects_position : Card → Bool
  | .noOp => false
  | _ => true

/-- The `for`-loop in `NearestRailroadCard.apply` / `NearestUtilityCard.apply`:
return the first space in the list strictly greater than the current
position, else the first element of the list. -/
def findAhead (spaces : List Nat) (current_position : Nat) : Nat :=
  match spaces.find? (fun r => decide (current_position < r)) with
  | some r => r
  | none => spaces.headD 0

/-- `Card.apply` and its overrides.  Returns `(new_position, in_jail_status)`.
For `goBack`, Python computes `(current_position - 3) % 40` with
mathematical (sign-of-divisor) modulus; for a non-negative position this
equals `(current_position + 37) % 40`. -/
def Card.apply : Card → Nat → Nat × Bool
  | .noOp, current_position => (current_position, false)
  | .advanceTo t, _ => (t, false)
  | .goToJail, _ => (JAIL_SPACE, true)
  | .goBack, current_position => ((current_position + 37) % 40, false)
  | .nearestRailroad, current_position => (findAhead RAILROAD_SPACES current_position, false)
  | .nearestUtility, current_position => (findAhead UTILITY_SPACES current_position, false)

/-- Test for membership in the `AdvanceToCard` subclass (a direct
advance-to card, with any target). -/
def Card.is_advance_to : Card → Bool
  | .advanceTo _ => true
  | _ => false

/-- The 16 cards built by `ChanceDeck.__init__`, in construction order. -/
def chance_card_list : List Card :=
  [.advanceTo GO_SPACE, .advanceTo 24, .advanceTo 11,
   .nearestRailroad, .nearestRailroad, .nearestUtility,
   .goBack, .advanceTo 39, .goToJail]
  ++ List.replicate 7 .noOp

/-- The 16 cards built by `CommunityChestDeck.__init__`. -/
def community_chest_card_list : List Card :=
  [.advanceTo GO_SPACE, .goToJail] ++ List.replicate 14 .noOp

/-! ## Decks (`utils/cards.py`, class `Deck`) -/

structure Deck where
  all_cards : List Card
  cards : List Card
deriving Repr

/-- `Deck.shuffle`: copy `all_cards` and shuffle; the shuffle outcome is
supplied as the function `σ`. -/
def Deck.shuffle (d : Deck) (σ : List Card → List Card) : Deck :=
  { d with cards := σ d.all_cards }

/-- `Deck.__init__`: store the full card list, start with an empty pile,
then shuffle. -/
def Deck.new (cards : List Card) (σ : List Card → List Card) : Deck :=
  Deck.shuffle { all_cards := cards, cards := [] } σ

/-- `Deck.draw`: reshuffle if the pile is empty, then `list.pop()` — remove
and return the *last* element.  `none` models the `IndexError` that
`pop` would raise on an empty list. -/
def Deck.draw (d : Deck) (σ : List Card → List Card) : Option (Card × Deck) :=
  let d := if d.cards.isEmpty then d.shuffle σ else d
  match d.cards.getLast? with
  | none => none
  | some c => some (c, { d with cards := d.cards.dropLast })

/-- A deck together with its stream of future shuffle outcomes (the
explicit form of the global `random` state consumed by `random.shuffle`). -/
structure DeckState where
  deck : Deck
  shuffles : Nat → List Card → List Card
  idx : Nat

/-- Building a fresh deck consumes the first shuffle of the stream. -/
def DeckState.init (cards : List Card) (shuffles : Nat → List Card → List Card) : DeckState :=
  { deck := Deck.new cards (shuffles 0), shuffles := shuffles, idx := 1 }

/-- Draw, consuming the next shuffle from the stream exactly when
`Deck.draw` reshuffles (i.e. when the pile was empty). -/
def DeckState.draw (ds : DeckState) : Option (Card × DeckState) :=
  match ds.deck.draw (ds.shuffles ds.idx) with
  | none => none
  | some (c, d) =>
      some (c, { ds with deck := d, idx := if ds.deck.cards.isEmpty then ds.idx + 1 else ds.idx })

/-- A shuffle stream is well formed when every shuffle it produces is a
permutation of its input (what `random.shuffle` guarantees). -/
def shuffles_ok (f : Nat → List Card → List Card) : Prop :=
  ∀ i l, List.Perm (f i l) l

/-- Invariant tying a deck state to the constant card list it was built
from: `all_cards` is that list, the current pile only holds cards from
it, and all future shuffles are permutations. -/
def DeckState.wf (ds : DeckState) (orig : List Card) : Prop :=
  ds.deck.all_cards = orig ∧ (∀ c ∈ ds.deck.cards, c ∈ orig) ∧ shuffles_ok ds.shuffles

/-! ## Player (`utils/player.py`) -/

structure Player where
  position : Nat
  in_jail : Bool
  jail_turns : Nat
  consecutive_doubles : Nat
  jail_strategy : String
deriving DecidableEq, Repr

/-- `Player.__init__`: start at GO, not jailed. -/
def Player.init (jail_strategy : String) : Player :=
  { position := GO_SPACE
    in_jail := false
    jail_turns := 0
    consecutive_doubles := 0
    jail_strategy := jail_strategy }

/-- `Player.move_forward`. -/
def Player.move_forward (p : Player) (spaces : Nat) : Player :=
  { p with position := (p.position + spaces) % 40 }

/-- `Player.send_to_jail`. -/
def Player.send_to_jail (p : Player) : Player :=
  { p with
      position := JAIL_SPACE
      in_jail := true
      jail_turns := 0
      consecutive_doubles := 0 }

/-- `Player.handle_jail_turn`, with the dice roll of the turn passed in.
Returns the updated player and `some total` when leaving jail (the
number of spaces to move), `none` when staying. -/
def Player.handle_jail_turn (p : Player) (die1 die2 : Nat) : Player × Option Nat :=
  if p.jail_strategy = "B" then
    ({ p with in_jail := false, jail_turns := 0 }, some (die1 + die2))
  else
    let total := die1 + die2
    let is_doubles := die1 == die2
    if is_doubles then
      ({ p with in_jail := false, jail_turns := 0 }, some total)
    else
      let p := { p with jail_turns := p.jail_turns + 1 }
      if p.jail_turns ≥ 3 then
        ({ p with in_jail := false, jail_turns := 0 }, some total)
      else
        (p, none)

/-- Replace only the `jail_strategy` field of a player (used to compare
runs that differ in nothing but the policy string). -/
def Player.with_strategy (p : Player) (s : String) : Player :=
  { p with jail_strategy := s }

/-- What one landing resolution guarantees about the resulting player
`o` relative to the player `q` that entered it: the position stays on
the board, the jail counters never grow, the policy never changes, and
the jail flag is either untouched or the player was freshly jailed with
`jail_turns = 0`. -/
def landing_post (q o : Player) : Prop :=
  o.position < 40 ∧ o.jail_turns ≤ q.jail_turns ∧
  o.consecutive_doubles ≤ q.consecutive_doubles ∧
  o.jail_strategy = q.jail_strategy ∧
  (o.in_jail = q.in_jail ∨ (o.in_jail = true ∧ o.jail_turns = 0))

/-- The Community-Chest block of `_process_landing` (the second `if` and
the final `return`), with the recursive call abstracted as `recur`.
Reached when the Chance block did not return. -/
def chest_block (recur : Player → DeckState → DeckState → Option (Player × DeckState × DeckState))
    (p : Player) (cd ccd : DeckState) : Option (Player × DeckState × DeckState) :=
  if is_community_chest p.position then
    match ccd.draw with
    | none => none
    | some (card, ccd) =>
      if card.affects_position then
        let r := card.apply p.position
        let p := { p with position := r.1 }
        if r.2 then
          some ({ p with in_jail := true, jail_turns := 0, consecutive_doubles := 0 }, cd, ccd)
        else
          recur p cd ccd
      else
        some (p, cd, ccd)
  else
    some (p, cd, ccd)

/-- `Player._process_landing`, with explicit recursion fuel.  `none`
models recursion deeper than the fuel (the embedding of Python's
unbounded recursive call). -/
def process_landing : Nat → Player → DeckState → DeckState →
    Option (Player × DeckState × DeckState)
  | 0, _, _, _ => none
  | fuel + 1, p, cd, ccd =>
    if p.position = GO_TO_JAIL_SPACE then
      some (p.send_to_jail, cd, ccd)
    else if is_chance p.position then
      match cd.draw with
      | none => none
      | some (card, cd) =>
        if card.affects_position then
          let r := card.apply p.position
          let p := { p with position := r.1 }
          if r.2 then
            some ({ p with in_jail := true, jail_turns := 0, consecutive_doubles := 0 }, cd, ccd)
          else
            process_landing fuel p cd ccd
        else
          chest_block (process_landing fuel) p cd ccd
    else
      chest_block (process_landing fuel) p cd ccd

/-- `Player.take_turn`, with the turn's dice roll passed in.  The final
position recorded by the simulation loop is the `position` of the
returned player (Python returns `self.position` on every path). -/
def Player.take_turn (p : Player) (fuel : Nat) (die1 die2 : Nat) (cd ccd : DeckState) :
    Option (Player × DeckState × DeckState) :=
  if p.in_jail then
    match p.handle_jail_turn die1 die2 with
    | (p, some move_amount) => process_landing fuel (p.move_forward move_amount) cd ccd
    | (p, none) => some (p, cd, ccd)
  else
    let total := die1 + die2
    let is_doubles := die1 == die2
    if is_doubles then
      let p := { p with consecutive_doubles := p.consecutive_doubles + 1 }
      if p.consecutive_doubles ≥ 3 then
        some (p.send_to_jail, cd, ccd)
      else
        process_landing fuel (p.move_forward total) cd ccd
    else
      let p := { p with consecutive_doubles := 0 }
      process_landing fuel (p.move_forward total) cd ccd

/-! ## Simulation engine (`utils/simulation.py`) -/

/-- The randomness consumed by one iteration: one dice roll per turn and
one shuffle stream per deck. -/
structure IterEnv where
  rolls : Nat → Nat × Nat
  chance_shuffles : Nat → List Card → List Card
  community_chest_shuffles : Nat → List Card → List Card

def IterEnv.wf (e : IterEnv) : Prop :=
  shuffles_ok e.chance_shuffles ∧ shuffles_ok e.community_chest_shuffles

/-- The inner loop of `run_simulation`: run `n` turns, incrementing the
landing counter at each turn's returned position. -/
def run_turns (fuel : Nat) (rolls : Nat → Nat × Nat) :
    Nat → Player → DeckState → DeckState → (Nat → Nat) →
    Option (Player × DeckState × DeckState × (Nat → Nat))
  | 0, p, cd, ccd, counts => some (p, cd, ccd, counts)
  | n + 1, p, cd, ccd, counts =>
    match p.take_turn fuel (rolls n).1 (rolls n).2 cd ccd with
    | none => none
    | some (p, cd, ccd) =>
        run_turns fuel rolls n p cd ccd
          (fun j => if j = p.position then counts j + 1 else counts j)

/-- The outer loop of `run_simulation`: for each iteration build a fresh
player and fresh decks, then run all turns. -/
def run_iters (fuel : Nat) (turns : Nat) (jail_strategy : String) (env : Nat → IterEnv) :
    Nat → (Nat → Nat) → Option (Nat → Nat)
  | 0, counts => some counts
  | n + 1, counts =>
    let e := env n
    let player := Player.init jail_strategy
    let cd := DeckState.init chance_card_list e.chance_shuffles
    let ccd := DeckState.init community_chest_card_list e.community_chest_shuffles
    match run_turns fuel e.rolls turns player cd ccd counts with
    | none => none
    | some (_, _, _, counts) => run_iters fuel turns jail_strategy env n counts

/-- `MonopolySimulation.run_simulation`: counts start at zero; the Python
construction accepts the counts as ints, and `range(n)` iterates
`max n 0` times, i.e. `Int.toNat n` times.  No validation is performed. -/
def run_simulation (fuel : Nat) (num_iterations turns_per_iteration : Int)
    (jail_strategy : String) (env : Nat → IterEnv) : Option (Nat → Nat) :=
  run_iters fuel turns_per_iteration.toNat jail_strategy env
    num_iterations.toNat (fun _ => 0)

/-- `MonopolySimulation.calculate_probabilities`: divide each of the 40
counters by their total (`np.sum`), in exact rational arithmetic. -/
def calculate_probabilities (landing_counts : Nat → Nat) : Nat → ℚ :=
  let total_landings : ℚ := ∑ i in Finset.range 40, (landing_counts i : ℚ)
  fun i => (landing_counts i : ℚ) / total_landings

/-! ## Concrete inputs used by witnesses and counterexamples -/

/-- The identity shuffle stream (a legitimate permutation for every call). -/
def idShuffle : Nat → List Card → List Card := fun _ l => l

/-- A fixed environment: every roll is (1, 2) and shuffles are the identity. -/
def cenv : Nat → IterEnv :=
  fun _ =>
    { rolls := fun _ => (1, 2)
      chance_shuffles := idShuffle
      community_chest_shuffles := idShuffle }

def dsChance : DeckState := DeckState.init chance_card_list idShuffle

def dsChest : DeckState := DeckState.init community_chest_card_list idShuffle

/-- The counter state after one turn of one iteration with rolls (1,2):
the player advances from GO to space 3. -/
def c1cex : Nat → Nat := fun j => if j = 3 then 0 + 1 else 0

/-- A player who has just been jailed (as by `send_to_jail`), strategy A. -/
def pJ : Player :=
  { position := 10
    in_jail := true
    jail_turns := 0
    consecutive_doubles := 0
    jail_strategy := "A" }

/-- `pJ` after one stay-in-jail turn (non-doubles roll). -/
def pJ1 : Player :=
  { position := 10
    in_jail := true
    jail_turns := 1
    consecutive_doubles := 0
    jail_strategy := "A" }

/-- A free player at GO who has already rolled two consecutive doubles. -/
def pD : Player :=
  { position := 0
    in_jail := false
    jail_turns := 0
    consecutive_doubles := 2
    jail_strategy := "A" }

/-- A free player standing on Chance space 36 (the deepest card chain). -/
def p36 : Player :=
  { position := 36
    in_jail := false
    jail_turns := 0
    consecutive_doubles := 0
    jail_strategy := "A" }

/-- The player state after one (1,2) turn from the initial state. -/
def pAfter : Player :=
  { position := 3
    in_jail := false
    jail_turns := 0
    consecutive_doubles := 0
    jail_strategy := "A" }

/-! ## Basic lemmas about cards and movement -/

theorem with_strategy_position (p : Player) (s : String) :
    (p.with_strategy s).position = p.position := rfl

theorem with_strategy_self (p : Player) (h : p.jail_strategy = "A") :
    p.with_strategy "A" = p := by
  cases p
  simp_all [Player.with_strategy]

theorem findAhead_railroad (p : Nat) :
    findAhead RAILROAD_SPACES p =
      if p < 5 then 5 else if p < 15 then 15 else if p < 25 then 25
      else if p < 35 then 35 else 5 := by
  by_cases h5 : p < 5 <;> by_cases h15 : p < 15 <;> by_cases h25 : p < 25 <;>
    by_cases h35 : p < 35 <;>
    simp [findAhead, RAILROAD_SPACES, List.find?, h5, h15, h25, h35]

theorem findAhead_utility (p : Nat) :
    findAhead UTILITY_SPACES p =
      if p < 12 then 12 else if p < 28 then 28 else 12 := by
  by_cases h12 : p < 12 <;> by_cases h28 : p < 28 <;>
    simp [findAhead, UTILITY_SPACES, List.find?, h12, h28]

theorem chance_mem {c : Card} (h : c ∈ chance_card_list) :
    c = .advanceTo 0 ∨ c = .advanceTo 24 ∨ c = .advanceTo 11 ∨
    c = .nearestRailroad ∨ c = .nearestUtility ∨ c = .goBack ∨
    c = .advanceTo 39 ∨ c = .goToJail ∨ c = .noOp := by
  simp [chance_card_list, GO_SPACE, List.mem_replicate] at h
  tauto

theorem chest_mem {c : Card} (h : c ∈ community_chest_card_list) :
    c = .advanceTo 0 ∨ c = .goToJail ∨ c = .noOp := by
  simp [community_chest_card_list, GO_SPACE, List.mem_replicate] at h
  tauto

/-- Every movement target of a deck card stays on the board. -/
theorem apply_fst_lt {c : Card} {p : Nat} (hp : p < 40)
    (hc : c ∈ chance_card_list ∨ c ∈ community_chest_card_list) :
    (c.apply p).1 < 40 := by
  have hmem : c = .advanceTo 0 ∨ c = .advanceTo 24 ∨ c = .advanceTo 11 ∨
      c = .nearestRailroad ∨ c = .nearestUtility ∨ c = .goBack ∨
      c = .advanceTo 39 ∨ c = .goToJail ∨ c = .noOp := by
    rcases hc with hc | hc
    · exact chance_mem hc
    · rcases chest_mem hc with h | h | h <;> tauto
  rcases hmem with rfl | rfl | rfl | rfl | rfl | rfl | rfl | rfl | rfl <;>
    simp [Card.apply, JAIL_SPACE, findAhead_railroad, findAhead_utility, hp]
  · split_ifs <;> omega
  · split_ifs <;> omega
  · exact Nat.mod_lt _ (by omega)

/-- Only the go-to-jail card sets the jail flag. -/
theorem apply_snd_eq {c : Card} {p : Nat} : (c.apply p).2 = true ↔ c = .goToJail := by
  cases c <;> simp [Card.apply]

/-! ## Deck lemmas: a well-formed deck always yields a card -/

theorem DeckState.draw_some {ds : DeckState} {orig : List Card}
    (h : ds.wf orig) (hne : orig ≠ []) : ∃ c ds', ds.draw = some (c, ds') := by
  obtain ⟨hall, _, hsh⟩ := h
  have hpile : (if ds.deck.cards.isEmpty then ds.deck.shuffle (ds.shuffles ds.idx)
      else ds.deck).cards ≠ [] := by
    split
    · simp only [Deck.shuffle]
      intro hnil
      have hlen := (hsh ds.idx ds.deck.all_cards).length_eq
      rw [hnil, hall] at hlen
      simp only [List.length_nil] at hlen
      exact hne (List.eq_nil_of_length_eq_zero hlen.symm)
    · rename_i he
      simpa [List.isEmpty_iff] using he
  simp only [DeckState.draw, Deck.draw]
  rw [List.getLast?_eq_getLast_of_ne_nil hpile]
  exact ⟨_, _, rfl⟩

theorem DeckState.draw_wf {ds : DeckState} {orig : List Card} {c : Card} {ds' : DeckState}
    (h : ds.wf orig) (hd : ds.draw = some (c, ds')) : c ∈ orig ∧ ds'.wf orig := by
  obtain ⟨hall, hmem, hsh⟩ := h
  simp only [DeckState.draw, Deck.draw] at hd
  set d2 := if ds.deck.cards.isEmpty then ds.deck.shuffle (ds.shuffles ds.idx) else ds.deck
    with hd2
  have hd2all : d2.all_cards = orig := by
    rw [hd2]; split <;> simp [Deck.shuffle, hall]
  have hd2mem : ∀ x ∈ d2.cards, x ∈ orig := by
    rw [hd2]; split
    · intro x hx
      simp only [Deck.shuffle] at hx
      rw [hall] at hx
      exact ((hsh ds.idx orig).mem_iff).mp hx
    · exact hmem
  rcases hlast : d2.cards.getLast? with _ | c0
  · rw [hlast] at hd
    simp at hd
  · rw [hlast] at hd
    simp only [Option.some.injEq, Prod.mk.injEq] at hd
    obtain ⟨hc, hds⟩ := hd
    have hcne : d2.cards ≠ [] := by
      intro hnil
      rw [hnil] at hlast
      simp at hlast
    have hc0 : c0 ∈ d2.cards := by
      rw [List.getLast?_eq_getLast_of_ne_nil hcne] at hlast
      have hg := Option.some.inj hlast
      rw [← hg]
      exact List.getLast_mem hcne
    constructor
    · rw [← hc]
      exact hd2mem _ hc0
    · rw [← hds]
      exact ⟨hd2all, fun x hx => hd2mem _ (List.mem_of_mem_dropLast hx), hsh⟩

/-- A freshly built deck state satisfies the invariant. -/
theorem DeckState.init_wf (cards : List Card) (f : Nat → List Card → List Card)
    (hf : shuffles_ok f) : (DeckState.init cards f).wf cards := by
  refine ⟨rfl, ?_, hf⟩
  intro c hc
  simp only [DeckState.init, Deck.new, Deck.shuffle] at hc
  exact ((hf 0 cards).mem_iff).mp hc

/-! ## Jail-turn characterisation (`handle_jail_turn`) -/

theorem landing_post_refl {p : Player} (hp : p.position < 40) : landing_post p p :=
  ⟨hp, le_refl _, le_refl _, rfl, Or.inl rfl⟩

/-- Whenever `handle_jail_turn` reports a move, it has released the player
and reset the jail counter, and the move is the full dice total. -/
theorem handle_release {p : Player} {d1 d2 : Nat} {p2 : Player} {t : Nat}
    (h : p.handle_jail_turn d1 d2 = (p2, some t)) :
    p2 = { p with in_jail := false, jail_turns := 0 } ∧ t = d1 + d2 := by
  simp only [Player.handle_jail_turn] at h
  split_ifs at h with hB hdbl h3
  · rw [Prod.mk.injEq] at h
    exact ⟨h.1.symm, (Option.some.inj h.2).symm⟩
  · rw [Prod.mk.injEq] at h
    exact ⟨h.1.symm, (Option.some.inj h.2).symm⟩
  · rw [Prod.mk.injEq] at h
    exact ⟨h.1.symm, (Option.some.inj h.2).symm⟩
  · exact absurd h (by simp)

/-- Whenever `handle_jail_turn` keeps the player in jail, the policy was
not B, the jail counter was merely incremented, and (because a count of
3 forces release) the new count is still below 3. -/
theorem handle_stay {p : Player} {d1 d2 : Nat} {p2 : Player}
    (h : p.handle_jail_turn d1 d2 = (p2, none)) :
    p.jail_strategy ≠ "B" ∧ p2 = { p with jail_turns := p.jail_turns + 1 } ∧
    p.jail_turns + 1 < 3 := by
  simp only [Player.handle_jail_turn] at h
  split_ifs at h with hB hdbl h3
  · exact absurd h (by simp)
  · exact absurd h (by simp)
  · exact absurd h (by simp)
  · rw [Prod.mk.injEq] at h
    have h3' : ¬ p.jail_turns + 1 ≥ 3 := h3
    exact ⟨hB, h.1.symm, by omega⟩

/-! ## Landing resolution preserves the state invariant -/

theorem chest_block_post
    (recur : Player → DeckState → DeckState → Option (Player × DeckState × DeckState))
    (hrec : ∀ q dq cq o dq' cq', q.position < 40 → dq.wf chance_card_list →
        cq.wf community_chest_card_list → recur q dq cq = some (o, dq', cq') →
        landing_post q o ∧ dq'.wf chance_card_list ∧ cq'.wf community_chest_card_list)
    (p : Player) (cd ccd : DeckState) (o : Player) (cd' ccd' : DeckState)
    (hp : p.position < 40) (hcd : cd.wf chance_card_list)
    (hccd : ccd.wf community_chest_card_list)
    (h : chest_block recur p cd ccd = some (o, cd', ccd')) :
    landing_post p o ∧ cd'.wf chance_card_list ∧ ccd'.wf community_chest_card_list := by
  simp only [chest_block] at h
  by_cases hcc : is_community_chest p.position = true
  · rw [if_pos hcc] at h
    rcases hdraw : ccd.draw with _ | ⟨card, ccd2⟩ <;> rw [hdraw] at h
    · simp at h
    · obtain ⟨hcmem, hccd2⟩ := DeckState.draw_wf hccd hdraw
      rcases chest_mem hcmem with rfl | rfl | rfl
      · -- advance to GO
        simp only [Card.affects_position, Card.apply, if_true, if_false] at h
        have := hrec _ _ _ _ _ _ (by omega : (0:Nat) < 40) hcd hccd2 h
        exact ⟨this.1, this.2⟩
      · -- go to jail
        simp only [Card.affects_position, Card.apply, if_true] at h
        simp only [Option.some.injEq, Prod.mk.injEq] at h
        obtain ⟨rfl, rfl, rfl⟩ := h
        exact ⟨⟨by simp [JAIL_SPACE], Nat.zero_le _, Nat.zero_le _, rfl,
          Or.inr ⟨rfl, rfl⟩⟩, hcd, hccd2⟩
      · -- no-op
        simp only [Card.affects_position, if_false, Bool.false_eq_true] at h
        simp only [Option.some.injEq, Prod.mk.injEq] at h
        obtain ⟨rfl, rfl, rfl⟩ := h
        exact ⟨landing_post_refl hp, hcd, hccd2⟩
  · rw [if_neg hcc] at h
    simp only [Option.some.injEq, Prod.mk.injEq] at h
    obtain ⟨rfl, rfl, rfl⟩ := h
    exact ⟨landing_post_refl hp, hcd, hccd⟩

theorem process_landing_post :
    ∀ (fuel : Nat) (p : Player) (cd ccd : DeckState) (o : Player) (cd' ccd' : DeckState),
      p.position < 40 → cd.wf chance_card_list → ccd.wf community_chest_card_list →
      process_landing fuel p cd ccd = some (o, cd', ccd') →
      landing_post p o ∧ cd'.wf chance_card_list ∧ ccd'.wf community_chest_card_list := by
  intro fuel
  induction fuel with
  | zero =>
    intro p cd ccd o cd' ccd' _ _ _ h
    simp [process_landing] at h
  | succ fuel ih =>
    intro p cd ccd o cd' ccd' hp hcd hccd h
    simp only [process_landing] at h
    by_cases h30 : p.position = GO_TO_JAIL_SPACE
    · rw [if_pos h30] at h
      simp only [Option.some.injEq, Prod.mk.injEq] at h
      obtain ⟨rfl, rfl, rfl⟩ := h
      exact ⟨⟨by simp [Player.send_to_jail, JAIL_SPACE], Nat.zero_le _, Nat.zero_le _,
        rfl, Or.inr ⟨rfl, rfl⟩⟩, hcd, hccd⟩
    · rw [if_neg h30] at h
      by_cases hch : is_chance p.position = true
      · rw [if_pos hch] at h
        rcases hdraw : cd.draw with _ | ⟨card, cd2⟩ <;> rw [hdraw] at h
        · simp at h
        · obtain ⟨hcmem, hcd2⟩ := DeckState.draw_wf hcd hdraw
          have hlt : (card.apply p.position).1 < 40 := apply_fst_lt hp (Or.inl hcmem)
          rcases chance_mem hcmem with rfl | rfl | rfl | rfl | rfl | rfl | rfl | rfl | rfl
          · simp only [Card.affects_position, Card.apply, if_true, if_false] at h
            have := ih _ _ _ _ _ _ hlt hcd2 hccd h
            exact ⟨this.1, this.2⟩
          · simp only [Card.affects_position, Card.apply, if_true, if_false] at h
            have := ih _ _ _ _ _ _ hlt hcd2 hccd h
            exact ⟨this.1, this.2⟩
          · simp only [Card.affects_position, Card.apply, if_true, if_false] at h
            have := ih _ _ _ _ _ _ hlt hcd2 hccd h
            exact ⟨this.1, this.2⟩
          · simp only [Card.affects_position, Card.apply, if_true, if_false] at h
            have := ih _ _ _ _ _ _ hlt hcd2 hccd h
            exact ⟨this.1, this.2⟩
          · simp only [Card.affects_position, Card.apply, if_true, if_false] at h
            have := ih _ _ _ _ _ _ hlt hcd2 hccd h
            exact ⟨this.1, this.2⟩
          · simp only [Card.affects_position, Card.apply, if_true, if_false] at h
            have := ih _ _ _ _ _ _ hlt hcd2 hccd h
            exact ⟨this.1, this.2⟩
          · simp only [Card.affects_position, Card.apply, if_true, if_false] at h
            have := ih _ _ _ _ _ _ hlt hcd2 hccd h
            exact ⟨this.1, this.2⟩
          · -- go to jail
            simp only [Card.affects_position, Card.apply, if_true] at h
            simp only [Option.some.injEq, Prod.mk.injEq] at h
            obtain ⟨rfl, rfl, rfl⟩ := h
            exact ⟨⟨by simp [JAIL_SPACE], Nat.zero_le _, Nat.zero_le _, rfl,
              Or.inr ⟨rfl, rfl⟩⟩, hcd2, hccd⟩
          · -- no-op: fall through to the community chest block
            simp only [Card.affects_position, Bool.false_eq_true, if_false] at h
            exact chest_block_post (process_landing fuel)
              (fun q dq cq o' dq' cq' hq hdq hcq hh => ih q dq cq o' dq' cq' hq hdq hcq hh)
              p cd2 ccd o cd' ccd' hp hcd2 hccd h
      · rw [if_neg hch] at h
        exact chest_block_post (process_landing fuel)
          (fun q dq cq o' dq' cq' hq hdq hcq hh => ih q dq cq o' dq' cq' hq hdq hcq hh)
          p cd ccd o cd' ccd' hp hcd hccd h

/-- One full turn keeps the position on the board, never changes the
policy, and preserves both deck invariants. -/
theorem take_turn_post (fuel : Nat) (p : Player) (d1 d2 : Nat) (cd ccd : DeckState)
    (o : Player) (cd' ccd' : DeckState)
    (hp : p.position < 40) (hcd : cd.wf chance_card_list)
    (hccd : ccd.wf community_chest_card_list)
    (h : p.take_turn fuel d1 d2 cd ccd = some (o, cd', ccd')) :
    o.position < 40 ∧ o.jail_strategy = p.jail_strategy ∧
    cd'.wf chance_card_list ∧ ccd'.wf community_chest_card_list := by
  simp only [Player.take_turn] at h
  by_cases hj : p.in_jail = true
  · rw [if_pos hj] at h
    rcases hh : p.handle_jail_turn d1 d2 with ⟨p2, m⟩
    rw [hh] at h
    rcases m with _ | t
    · simp only [Option.some.injEq, Prod.mk.injEq] at h
      obtain ⟨rfl, rfl, rfl⟩ := h
      obtain ⟨_, hp2, _⟩ := handle_stay hh
      subst hp2
      exact ⟨hp, rfl, hcd, hccd⟩
    · obtain ⟨hp2, _⟩ := handle_release hh
      have hmf : (p2.move_forward t).position < 40 := Nat.mod_lt _ (by omega)
      have := process_landing_post fuel _ _ _ _ _ _ hmf hcd hccd h
      refine ⟨this.1.1, ?_, this.2⟩
      subst hp2
      exact this.1.2.2.2.1
  · rw [if_neg hj] at h
    by_cases hd : (d1 == d2) = true
    · rw [if_pos hd] at h
      by_cases h3 : p.consecutive_doubles + 1 ≥ 3
      · rw [if_pos h3] at h
        simp only [Option.some.injEq, Prod.mk.injEq] at h
        obtain ⟨rfl, rfl, rfl⟩ := h
        exact ⟨by simp [Player.send_to_jail, JAIL_SPACE], rfl, hcd, hccd⟩
      · rw [if_neg h3] at h
        have hmf : (({ p with consecutive_doubles := p.consecutive_doubles + 1
            } : Player).move_forward (d1 + d2)).position < 40 := Nat.mod_lt _ (by omega)
        have := process_landing_post fuel _ _ _ _ _ _ hmf hcd hccd h
        exact ⟨this.1.1, this.1.2.2.2.1, this.2⟩
    · rw [if_neg hd] at h
      have hmf : (({ p with consecutive_doubles := 0 } : Player).move_forward
          (d1 + d2)).position < 40 := Nat.mod_lt _ (by omega)
      have := process_landing_post fuel _ _ _ _ _ _ hmf hcd hccd h
      exact ⟨this.1.1, this.1.2.2.2.1, this.2⟩

/-! ## Counting: each successful turn increments exactly one counter -/

theorem sum_incr (c : Nat → Nat) (pos : Nat) (hpos : pos < 40) :
    (∑ j in Finset.range 40, (if j = pos then c j + 1 else c j)) =
      (∑ j in Finset.range 40, c j) + 1 := by
  have hsplit : ∀ j : Nat,
      (if j = pos then c j + 1 else c j) = c j + (if j = pos then 1 else 0) := by
    intro j
    split <;> simp
  calc (∑ j in Finset.range 40, (if j = pos then c j + 1 else c j))
      = ∑ j in Finset.range 40, (c j + (if j = pos then 1 else 0)) :=
        Finset.sum_congr rfl (fun j _ => hsplit j)
    _ = (∑ j in Finset.range 40, c j) + ∑ j in Finset.range 40, (if j = pos then 1 else 0) :=
        Finset.sum_add_distrib
    _ = (∑ j in Finset.range 40, c j) + 1 := by
        rw [Finset.sum_ite_eq' (Finset.range 40) pos (fun _ => 1)]
        simp [Finset.mem_range.mpr hpos]

theorem run_turns_post (fuel : Nat) (rolls : Nat → Nat × Nat) :
    ∀ (n : Nat) (p : Player) (cd ccd : DeckState) (counts : Nat → Nat)
      (o : Player) (cd' ccd' : DeckState) (counts' : Nat → Nat),
      p.position < 40 → cd.wf chance_card_list → ccd.wf community_chest_card_list →
      run_turns fuel rolls n p cd ccd counts = some (o, cd', ccd', counts') →
      o.position < 40 ∧ cd'.wf chance_card_list ∧ ccd'.wf community_chest_card_list ∧
      o.jail_strategy = p.jail_strategy ∧
      (∑ j in Finset.range 40, counts' j) = (∑ j in Finset.range 40, counts j) + n ∧
      (∀ j, 40 ≤ j → counts' j = counts j) := by
  intro n
  induction n with
  | zero =>
    intro p cd ccd counts o cd' ccd' counts' hp hcd hccd h
    simp only [run_turns, Option.some.injEq, Prod.mk.injEq] at h
    obtain ⟨rfl, rfl, rfl, rfl⟩ := h
    exact ⟨hp, hcd, hccd, rfl, by omega, fun j _ => rfl⟩
  | succ n ih =>
    intro p cd ccd counts o cd' ccd' counts' hp hcd hccd h
    simp only [run_turns] at h
    rcases hstep : p.take_turn fuel (rolls n).1 (rolls n).2 cd ccd
      with _ | ⟨p1, cd1, ccd1⟩ <;> rw [hstep] at h
    · simp at h
    · obtain ⟨hp1, hstrat1, hcd1, hccd1⟩ :=
        take_turn_post fuel p _ _ cd ccd p1 cd1 ccd1 hp hcd hccd hstep
      replace h : run_turns fuel rolls n p1 cd1 ccd1
          (fun j => if j = p1.position then counts j + 1 else counts j) =
          some (o, cd', ccd', counts') := h
      have hrest := ih p1 cd1 ccd1 _ o cd' ccd' counts' hp1 hcd1 hccd1 h
      refine ⟨hrest.1, hrest.2.1, hrest.2.2.1, hrest.2.2.2.1.trans hstrat1, ?_, ?_⟩
      · rw [hrest.2.2.2.2.1, sum_incr counts p1.position hp1]
        omega
      · intro j hj
        rw [hrest.2.2.2.2.2 j hj]
        have hne : j ≠ p1.position := by omega
        simp [hne]

theorem run_iters_post (fuel turns : Nat) (s : String) (env : Nat → IterEnv)
    (henv : ∀ i, (env i).wf) :
    ∀ (m : Nat) (counts counts' : Nat → Nat),
      run_iters fuel turns s env m counts = some counts' →
      (∑ j in Finset.range 40, counts' j) =
        (∑ j in Finset.range 40, counts j) + m * turns := by
  intro m
  induction m with
  | zero =>
    intro counts counts' h
    simp only [run_iters, Option.some.injEq] at h
    subst h
    omega
  | succ m ih =>
    intro counts counts' h
    simp only [run_iters] at h
    rcases hrun : run_turns fuel (env m).rolls turns (Player.init s)
        (DeckState.init chance_card_list (env m).chance_shuffles)
        (DeckState.init community_chest_card_list (env m).community_chest_shuffles) counts
      with _ | ⟨o, cdx, ccdx, counts1⟩ <;> rw [hrun] at h
    · simp at h
    · replace h : run_iters fuel turns s env m counts1 = some counts' := h
      have hsum := (run_turns_post fuel (env m).rolls turns (Player.init s) _ _ counts
        o cdx ccdx counts1 (by norm_num [Player.init, GO_SPACE])
        (DeckState.init_wf _ _ (henv m).1)
        (DeckState.init_wf _ _ (henv m).2) hrun).2.2.2.2.1
      rw [ih counts1 counts' h, hsum]
      ring

/-- With a non-positive turn count, every iteration leaves the counters
untouched. -/
theorem run_iters_zero_turns (fuel : Nat) (s : String) (env : Nat → IterEnv) :
    ∀ (m : Nat) (counts : Nat → Nat), run_iters fuel 0 s env m counts = some counts := by
  intro m
  induction m with
  | zero =>
    intro counts
    rfl
  | succ m ih =>
    intro counts
    simpa [run_iters, run_turns] using ih counts

/-! ## The jail policy string is only compared against "B"

Every policy value other than the exact string "B" takes the same code
path as policy "A"; the lemmas below make this a precise simulation
between a run with policy `s` and the same run with policy "A". -/

theorem with_strategy_eta (p : Player) : p.with_strategy p.jail_strategy = p := by
  cases p
  rfl

theorem handle_strategy (p : Player) (s : String) (hs : s ≠ "B") (d1 d2 : Nat) :
    (p.with_strategy s).handle_jail_turn d1 d2 =
      (((p.with_strategy "A").handle_jail_turn d1 d2).1.with_strategy s,
       ((p.with_strategy "A").handle_jail_turn d1 d2).2) := by
  simp only [Player.handle_jail_turn, Player.with_strategy]
  rw [if_neg hs, if_neg (by decide : ¬ ("A" : String) = "B")]
  split_ifs <;> rfl

theorem chest_block_strategy
    (recur : Player → DeckState → DeckState → Option (Player × DeckState × DeckState))
    (s : String)
    (hrec : ∀ q dq cq, recur (q.with_strategy s) dq cq =
        (recur q dq cq).map (fun r => (r.1.with_strategy s, r.2)))
    (p : Player) (cd ccd : DeckState) :
    chest_block recur (p.with_strategy s) cd ccd =
      (chest_block recur p cd ccd).map (fun r => (r.1.with_strategy s, r.2)) := by
  simp only [chest_block, with_strategy_position]
  by_cases hcc : is_community_chest p.position = true
  · rw [if_pos hcc, if_pos hcc]
    rcases ccd.draw with _ | ⟨card, ccd2⟩
    · rfl
    · dsimp only
      by_cases haff : card.affects_position = true
      · rw [if_pos haff, if_pos haff]
        by_cases hjail : (card.apply p.position).2 = true
        · rw [if_pos hjail, if_pos hjail]
          rfl
        · rw [if_neg hjail, if_neg hjail]
          exact hrec { p with position := (card.apply p.position).1 } cd ccd2
      · rw [if_neg haff, if_neg haff]
        rfl
  · rw [if_neg hcc, if_neg hcc]
    rfl

theorem process_landing_strategy :
    ∀ (fuel : Nat) (p : Player) (cd ccd : DeckState) (s : String),
      process_landing fuel (p.with_strategy s) cd ccd =
        (process_landing fuel p cd ccd).map (fun r => (r.1.with_strategy s, r.2)) := by
  intro fuel
  induction fuel with
  | zero =>
    intro p cd ccd s
    rfl
  | succ fuel ih =>
    intro p cd ccd s
    simp only [process_landing, with_strategy_position]
    by_cases h30 : p.position = GO_TO_JAIL_SPACE
    · rw [if_pos h30, if_pos h30]
      rfl
    · rw [if_neg h30, if_neg h30]
      by_cases hch : is_chance p.position = true
      · rw [if_pos hch, if_pos hch]
        rcases cd.draw with _ | ⟨card, cd2⟩
        · rfl
        · dsimp only
          by_cases haff : card.affects_position = true
          · rw [if_pos haff, if_pos haff]
            by_cases hjail : (card.apply p.position).2 = true
            · rw [if_pos hjail, if_pos hjail]
              rfl
            · rw [if_neg hjail, if_neg hjail]
              exact ih { p with position := (card.apply p.position).1 } cd2 ccd s
          · rw [if_neg haff, if_neg haff]
            exact chest_block_strategy (process_landing fuel) s
              (fun q dq cq => ih q dq cq s) p cd2 ccd
      · rw [if_neg hch, if_neg hch]
        exact chest_block_strategy (process_landing fuel) s
          (fun q dq cq => ih q dq cq s) p cd ccd

/-- Landing resolution never writes the policy field. -/
theorem process_landing_strategy_const {fuel : Nat} {p : Player} {cd ccd : DeckState}
    {o : Player} {cd' ccd' : DeckState}
    (h : process_landing fuel p cd ccd = some (o, cd', ccd')) :
    o.jail_strategy = p.jail_strategy := by
  have hmap := process_landing_strategy fuel p cd ccd p.jail_strategy
  rw [with_strategy_eta, h] at hmap
  simp only [Option.map_some'] at hmap
  have ho : o = o.with_strategy p.jail_strategy :=
    congrArg Prod.fst (Option.some.inj hmap)
  rw [ho]
  rfl

theorem take_turn_strategy (fuel : Nat) (p : Player) (d1 d2 : Nat) (cd ccd : DeckState)
    (s : String) (hs : s ≠ "B") :
    (p.with_strategy s).take_turn fuel d1 d2 cd ccd =
      ((p.with_strategy "A").take_turn fuel d1 d2 cd ccd).map
        (fun r => (r.1.with_strategy s, r.2)) := by
  simp only [Player.take_turn]
  by_cases hj : p.in_jail = true
  · rw [if_pos (show (p.with_strategy s).in_jail = true from hj),
      if_pos (show (p.with_strategy "A").in_jail = true from hj)]
    rw [handle_strategy p s hs d1 d2]
    rcases (p.with_strategy "A").handle_jail_turn d1 d2 with ⟨p2, m⟩
    rcases m with _ | t
    · rfl
    · dsimp only
      exact process_landing_strategy fuel (p2.move_forward t) cd ccd s
  · rw [if_neg (show ¬ (p.with_strategy s).in_jail = true from hj),
      if_neg (show ¬ (p.with_strategy "A").in_jail = true from hj)]
    by_cases hd : (d1 == d2) = true
    · rw [if_pos hd, if_pos hd]
      by_cases h3 : p.consecutive_doubles + 1 ≥ 3
      · rw [if_pos (show ({ p.with_strategy s with
            consecutive_doubles := (p.with_strategy s).consecutive_doubles + 1
            } : Player).consecutive_doubles ≥ 3 from h3),
          if_pos (show ({ p.with_strategy "A" with
            consecutive_doubles := (p.with_strategy "A").consecutive_doubles + 1
            } : Player).consecutive_doubles ≥ 3 from h3)]
        rfl
      · rw [if_neg (show ¬ ({ p.with_strategy s with
            consecutive_doubles := (p.with_strategy s).consecutive_doubles + 1
            } : Player).consecutive_doubles ≥ 3 from h3),
          if_neg (show ¬ ({ p.with_strategy "A" with
            consecutive_doubles := (p.with_strategy "A").consecutive_doubles + 1
            } : Player).consecutive_doubles ≥ 3 from h3)]
        exact process_landing_strategy fuel
          (({ p with consecutive_doubles := p.consecutive_doubles + 1, jail_strategy := "A"
            } : Player).move_forward (d1 + d2)) cd ccd s
    · rw [if_neg hd, if_neg hd]
      exact process_landing_strategy fuel
        (({ p with consecutive_doubles := 0, jail_strategy := "A" } : Player).move_forward
          (d1 + d2)) cd ccd s

/-- One turn never writes the policy field. -/
theorem take_turn_strategy_const {fuel : Nat} {p : Player} {d1 d2 : Nat}
    {cd ccd : DeckState} {o : Player} {cd' ccd' : DeckState}
    (h : p.take_turn fuel d1 d2 cd ccd = some (o, cd', ccd')) :
    o.jail_strategy = p.jail_strategy := by
  simp only [Player.take_turn] at h
  by_cases hj : p.in_jail = true
  · rw [if_pos hj] at h
    rcases hh : p.handle_jail_turn d1 d2 with ⟨p2, m⟩
    rw [hh] at h
    have hp2 : p2.jail_strategy = p.jail_strategy := by
      simp only [Player.handle_jail_turn] at hh
      split_ifs at hh <;> (rw [Prod.mk.injEq] at hh; rw [← hh.1])
    rcases m with _ | t
    · replace h : some (p2, cd, ccd) = some (o, cd', ccd') := h
      simp only [Option.some.injEq, Prod.mk.injEq] at h
      rw [← h.1]
      exact hp2
    · replace h : process_landing fuel (p2.move_forward t) cd ccd = some (o, cd', ccd') := h
      exact (process_landing_strategy_const h).trans hp2
  · rw [if_neg hj] at h
    split_ifs at h with hd h3
    · simp only [Option.some.injEq, Prod.mk.injEq] at h
      rw [← h.1]
      rfl
    · have hc := process_landing_strategy_const h
      exact hc
    · have hc := process_landing_strategy_const h
      exact hc

theorem run_turns_strategy (fuel : Nat) (rolls : Nat → Nat × Nat) (s : String) (hs : s ≠ "B") :
    ∀ (n : Nat) (p : Player) (cd ccd : DeckState) (counts : Nat → Nat),
      p.jail_strategy = "A" →
      run_turns fuel rolls n (p.with_strategy s) cd ccd counts =
        (run_turns fuel rolls n p cd ccd counts).map
          (fun r => (r.1.with_strategy s, r.2)) := by
  intro n
  induction n with
  | zero =>
    intro p cd ccd counts hA
    rfl
  | succ n ih =>
    intro p cd ccd counts hA
    simp only [run_turns]
    have ht := take_turn_strategy fuel p (rolls n).1 (rolls n).2 cd ccd s hs
    rw [with_strategy_self p hA] at ht
    rw [ht]
    rcases hstep : p.take_turn fuel (rolls n).1 (rolls n).2 cd ccd with _ | ⟨p1, cd1, ccd1⟩
    · rfl
    · dsimp only [Option.map_some']
      have hA1 : p1.jail_strategy = "A" := (take_turn_strategy_const hstep).trans hA
      exact ih p1 cd1 ccd1 _ hA1

theorem run_iters_strategy (fuel turns : Nat) (env : Nat → IterEnv) (s : String)
    (hs : s ≠ "B") :
    ∀ (m : Nat) (counts : Nat → Nat),
      run_iters fuel turns s env m counts = run_iters fuel turns "A" env m counts := by
  intro m
  induction m with
  | zero =>
    intro counts
    rfl
  | succ m ih =>
    intro counts
    simp only [run_iters]
    have hrt := run_turns_strategy fuel (env m).rolls s hs turns (Player.init "A")
      (DeckState.init chance_card_list (env m).chance_shuffles)
      (DeckState.init community_chest_card_list (env m).community_chest_shuffles) counts rfl
    rw [show (Player.init "A").with_strategy s = Player.init s from rfl] at hrt
    rw [hrt]
    rcases run_turns fuel (env m).rolls turns (Player.init "A")
        (DeckState.init chance_card_list (env m).chance_shuffles)
        (DeckState.init community_chest_card_list (env m).community_chest_shuffles) counts
      with _ | ⟨o, cdx, ccdx, counts1⟩
    · rfl
    · exact ih counts1

/-- The whole engine treats any policy other than "B" exactly like "A". -/
theorem run_simulation_strategy (fuel : Nat) (n t : Int) (s : String) (hs : s ≠ "B")
    (env : Nat → IterEnv) :
    run_simulation fuel n t s env = run_simulation fuel n t "A" env :=
  run_iters_strategy fuel t.toNat env s hs n.toNat (fun _ => 0)

/-! ## Termination of landing resolution within recursion depth 3 -/

/-- One-step unfolding of `process_landing` (definitional). -/
theorem process_landing_succ (fuel : Nat) (p : Player) (cd ccd : DeckState) :
    process_landing (fuel + 1) p cd ccd =
      (if p.position = GO_TO_JAIL_SPACE then
        some (p.send_to_jail, cd, ccd)
      else if is_chance p.position then
        match cd.draw with
        | none => none
        | some (card, cd) =>
          if card.affects_position then
            let r := card.apply p.position
            let p := { p with position := r.1 }
            if r.2 then
              some ({ p with in_jail := true, jail_turns := 0, consecutive_doubles := 0 },
                cd, ccd)
            else
              process_landing fuel p cd ccd
          else
            chest_block (process_landing fuel) p cd ccd
      else
        chest_block (process_landing fuel) p cd ccd) := rfl

theorem is_chance_eq (k : Nat) :
    is_chance k = (decide (k = 7) || (decide (k = 22) || decide (k = 36))) := by
  simp [is_chance, CHANCE_SPACES, List.contains]

theorem is_community_chest_eq (k : Nat) :
    is_community_chest k = (decide (k = 2) || (decide (k = 17) || decide (k = 33))) := by
  simp [is_community_chest, COMMUNITY_CHEST_SPACES, List.contains]

/-- Landing on an ordinary space resolves immediately. -/
theorem landing_plain (fuel : Nat) (p : Player) (cd ccd : DeckState)
    (h30 : p.position ≠ GO_TO_JAIL_SPACE) (hch : is_chance p.position = false)
    (hcc : is_community_chest p.position = false) :
    process_landing (fuel + 1) p cd ccd = some (p, cd, ccd) := by
  simp [process_landing_succ, chest_block, h30, hch, hcc]

/-- Landing on a Community Chest space resolves within recursion depth 2:
every position-affecting Community Chest card targets Go or Jail, and
neither is a card space. -/
theorem landing_chest_some (fuel : Nat) (p : Player) (cd ccd : DeckState)
    (hpos : p.position = 2 ∨ p.position = 17 ∨ p.position = 33)
    (hcd : cd.wf chance_card_list) (hccd : ccd.wf community_chest_card_list) :
    (process_landing (fuel + 1 + 1) p cd ccd).isSome = true := by
  obtain ⟨card, ccd2, hdraw⟩ := DeckState.draw_some hccd (by simp [community_chest_card_list])
  obtain ⟨hcmem, hccd2⟩ := DeckState.draw_wf hccd hdraw
  rcases hpos with hp | hp | hp <;>
    rcases chest_mem hcmem with rfl | rfl | rfl <;>
    simp [process_landing_succ, chest_block, hp, hdraw, Card.affects_position, Card.apply,
      is_chance_eq, is_community_chest_eq, GO_TO_JAIL_SPACE, JAIL_SPACE, GO_SPACE]

/-- Landing on a Chance space resolves within recursion depth 3: the only
chain through another card space is Go Back 3 drawn on space 36, which
lands on Community Chest 33. -/
theorem landing_chance_some (fuel : Nat) (p : Player) (cd ccd : DeckState)
    (hpos : p.position = 7 ∨ p.position = 22 ∨ p.position = 36)
    (hcd : cd.wf chance_card_list) (hccd : ccd.wf community_chest_card_list) :
    (process_landing (fuel + 1 + 1 + 1) p cd ccd).isSome = true := by
  obtain ⟨card, cd2, hdraw⟩ := DeckState.draw_some hcd (by simp [chance_card_list])
  obtain ⟨hcmem, hcd2⟩ := DeckState.draw_wf hcd hdraw
  obtain ⟨card2, ccd2, hdraw2⟩ := DeckState.draw_some hccd (by simp [community_chest_card_list])
  obtain ⟨hcmem2, hccd2⟩ := DeckState.draw_wf hccd hdraw2
  rcases hpos with hp | hp | hp <;>
    rcases chance_mem hcmem with rfl | rfl | rfl | rfl | rfl | rfl | rfl | rfl | rfl <;>
    rcases chest_mem hcmem2 with rfl | rfl | rfl <;>
    simp [process_landing_succ, chest_block, hp, hdraw, hdraw2, Card.affects_position,
      Card.apply, is_chance_eq, is_community_chest_eq, findAhead_railroad, findAhead_utility,
      GO_TO_JAIL_SPACE, JAIL_SPACE, GO_SPACE]

/-! ## Jail-entry bookkeeping of landing resolution (no deck hypotheses) -/

theorem chest_block_jail
    (recur : Player → DeckState → DeckState → Option (Player × DeckState × DeckState))
    (hrec : ∀ q dq cq o dq' cq', recur q dq cq = some (o, dq', cq') →
        (o.in_jail = q.in_jail ∧ o.jail_turns = q.jail_turns) ∨
          (o.in_jail = true ∧ o.jail_turns = 0))
    (p : Player) (cd ccd : DeckState) (o : Player) (cd' ccd' : DeckState)
    (h : chest_block recur p cd ccd = some (o, cd', ccd')) :
    (o.in_jail = p.in_jail ∧ o.jail_turns = p.jail_turns) ∨
      (o.in_jail = true ∧ o.jail_turns = 0) := by
  simp only [chest_block] at h
  by_cases hcc : is_community_chest p.position = true
  · rw [if_pos hcc] at h
    rcases hdraw : ccd.draw with _ | ⟨card, ccd2⟩ <;> rw [hdraw] at h
    · simp at h
    · replace h :
          (if card.affects_position = true then
            if (card.apply p.position).2 = true then
              some (({ p with position := (card.apply p.position).1, in_jail := true, jail_turns := 0, consecutive_doubles := 0 } : Player), cd, ccd2)
            else
              recur { p with position := (card.apply p.position).1 } cd ccd2
          else some (p, cd, ccd2)) = some (o, cd', ccd') := h
      by_cases haff : card.affects_position = true
      · rw [if_pos haff] at h
        by_cases hjail : (card.apply p.position).2 = true
        · rw [if_pos hjail] at h
          simp only [Option.some.injEq, Prod.mk.injEq] at h
          obtain ⟨rfl, rfl, rfl⟩ := h
          exact Or.inr ⟨rfl, rfl⟩
        · rw [if_neg hjail] at h
          have hq := hrec _ _ _ _ _ _ h
          exact hq
      · rw [if_neg haff] at h
        simp only [Option.some.injEq, Prod.mk.injEq] at h
        obtain ⟨rfl, rfl, rfl⟩ := h
        exact Or.inl ⟨rfl, rfl⟩
  · rw [if_neg hcc] at h
    simp only [Option.some.injEq, Prod.mk.injEq] at h
    obtain ⟨rfl, rfl, rfl⟩ := h
    exact Or.inl ⟨rfl, rfl⟩

/-- Landing resolution either leaves the jail flag and jail counter
untouched, or jails the player with a zero counter.  (Proved without any
deck hypothesis, so it applies to arbitrary deck states.) -/
theorem process_landing_jail :
    ∀ (fuel : Nat) (p : Player) (cd ccd : DeckState) (o : Player) (cd' ccd' : DeckState),
      process_landing fuel p cd ccd = some (o, cd', ccd') →
      (o.in_jail = p.in_jail ∧ o.jail_turns = p.jail_turns) ∨
        (o.in_jail = true ∧ o.jail_turns = 0) := by
  intro fuel
  induction fuel with
  | zero =>
    intro p cd ccd o cd' ccd' h
    simp [process_landing] at h
  | succ fuel ih =>
    intro p cd ccd o cd' ccd' h
    simp only [process_landing] at h
    by_cases h30 : p.position = GO_TO_JAIL_SPACE
    · rw [if_pos h30] at h
      simp only [Option.some.injEq, Prod.mk.injEq] at h
      obtain ⟨rfl, rfl, rfl⟩ := h
      exact Or.inr ⟨rfl, rfl⟩
    · rw [if_neg h30] at h
      by_cases hch : is_chance p.position = true
      · rw [if_pos hch] at h
        rcases hdraw : cd.draw with _ | ⟨card, cd2⟩ <;> rw [hdraw] at h
        · simp at h
        · replace h :
              (if card.affects_position = true then
                if (card.apply p.position).2 = true then
                  some (({ p with position := (card.apply p.position).1, in_jail := true, jail_turns := 0, consecutive_doubles := 0 } : Player), cd2, ccd)
                else
                  process_landing fuel { p with position := (card.apply p.position).1 } cd2 ccd
              else chest_block (process_landing fuel) p cd2 ccd) = some (o, cd', ccd') := h
          by_cases haff : card.affects_position = true
          · rw [if_pos haff] at h
            by_cases hjail : (card.apply p.position).2 = true
            · rw [if_pos hjail] at h
              simp only [Option.some.injEq, Prod.mk.injEq] at h
              obtain ⟨rfl, rfl, rfl⟩ := h
              exact Or.inr ⟨rfl, rfl⟩
            · rw [if_neg hjail] at h
              have hq := ih _ _ _ _ _ _ h
              exact hq
          · rw [if_neg haff] at h
            exact chest_block_jail (process_landing fuel)
              (fun q dq cq o' dq' cq' hh => ih q dq cq o' dq' cq' hh) p cd2 ccd o cd' ccd' h
      · rw [if_neg hch] at h
        exact chest_block_jail (process_landing fuel)
          (fun q dq cq o' dq' cq' hh => ih q dq cq o' dq' cq' hh) p cd ccd o cd' ccd' h

/-! ## Concrete well-formedness facts for the witness inputs -/

theorem dsChance_wf : dsChance.wf chance_card_list :=
  DeckState.init_wf _ _ (fun _ l => List.Perm.refl l)

theorem dsChest_wf : dsChest.wf community_chest_card_list :=
  DeckState.init_wf _ _ (fun _ l => List.Perm.refl l)

theorem cenv_wf : ∀ i, (cenv i).wf :=
  fun _ => ⟨fun _ l => List.Perm.refl l, fun _ l => List.Perm.refl l⟩

/-! ## The claims -/

/-- C1 counterexample: `run_simulation` performs no fail-fast validation.
Called with the unrecognized policy identifier "X" (and positive counts),
it does not reject the configuration: it simulates a full turn and
increments landing counter 3, so simulation work happens and a counter is
touched. -/
theorem C1_counterexample :
    run_simulation 4 1 1 "X" cenv = some c1cex ∧ c1cex 3 = 1 ∧
    (∑ j in Finset.range 40, c1cex j) = 1 :=
  ⟨rfl, rfl, by decide⟩

/-- C1 (amended): the engine never rejects a configuration.  With a
non-positive iteration or turn count it simply performs no simulation
work (all 40 counters stay zero), and an unrecognized policy identifier
is accepted and silently simulated exactly as policy "A". -/
theorem C1_amended (fuel : Nat) (n t : Int) (s : String) (env : Nat → IterEnv) :
    ((n ≤ 0 ∨ t ≤ 0) → run_simulation fuel n t s env = some (fun _ => 0)) ∧
    (s ≠ "B" → run_simulation fuel n t s env = run_simulation fuel n t "A" env) := by
  constructor
  · intro hnp
    rcases hnp with hn | ht
    · have h0 : n.toNat = 0 := by omega
      simp only [run_simulation, h0]
      rfl
    · have h0 : t.toNat = 0 := by omega
      simp only [run_simulation, h0]
      exact run_iters_zero_turns fuel s env n.toNat (fun _ => 0)
  · intro hs
    exact run_simulation_strategy fuel n t s hs env

/-- C1 amended witness: a zero-iteration run returns all-zero counters,
and a run with the invalid policy "X" equals the policy-"A" run. -/
theorem C1_amended_witness :
    run_simulation 4 0 5 "A" cenv = some (fun _ => 0) ∧
    run_simulation 4 1 1 "X" cenv = run_simulation 4 1 1 "A" cenv :=
  ⟨(C1_amended 4 0 5 "A" cenv).1 (Or.inl (by norm_num)),
   (C1_amended 4 1 1 "X" cenv).2 (by decide)⟩

/-- C2 counterexample: the freshly built Chance deck contains 4 direct
advance-to cards (Go, Illinois 24, St. Charles 11, Boardwalk 39), not 3
as the claim states. -/
theorem C2_counterexample :
    ¬ (chance_card_list.countP Card.is_advance_to = 3) := by decide

/-- C2 (amended): the freshly built Chance deck contains exactly 16
cards: 4 direct advance-to cards (one of them advance to Go), 2
advance-to-nearest-railroad, 1 advance-to-nearest-utility, 1 go-back-3,
1 send-to-jail and 7 no-ops; the freshly built Community-Chest deck
contains exactly 16 cards: 1 advance-to-Go, 1 send-to-jail and 14
no-ops. -/
theorem C2_amended :
    chance_card_list.length = 16 ∧
    chance_card_list.countP Card.is_advance_to = 4 ∧
    chance_card_list.count (Card.advanceTo 0) = 1 ∧
    chance_card_list.count Card.nearestRailroad = 2 ∧
    chance_card_list.count Card.nearestUtility = 1 ∧
    chance_card_list.count Card.goBack = 1 ∧
    chance_card_list.count Card.goToJail = 1 ∧
    chance_card_list.count Card.noOp = 7 ∧
    community_chest_card_list.length = 16 ∧
    community_chest_card_list.countP Card.is_advance_to = 1 ∧
    community_chest_card_list.count (Card.advanceTo 0) = 1 ∧
    community_chest_card_list.count Card.goToJail = 1 ∧
    community_chest_card_list.count Card.noOp = 14 := by decide

/-- C3: for every position p in [0,39], the nearest-railroad card moves
to the first element of [5,15,25,35] strictly greater than p (wrapping
to 5 when none exists) and never jails; the identical rule holds for the
nearest-utility card over [12,28].  In particular 5 ↦ 15, 35 ↦ 5,
12 ↦ 28 and 28 ↦ 12. -/
theorem C3 (p : Nat) (hp : p < 40) :
    Card.nearestRailroad.apply p =
      (if p < 5 then 5 else if p < 15 then 15 else if p < 25 then 25
        else if p < 35 then 35 else 5, false) ∧
    Card.nearestUtility.apply p =
      (if p < 12 then 12 else if p < 28 then 28 else 12, false) ∧
    Card.nearestRailroad.apply 5 = (15, false) ∧
    Card.nearestRailroad.apply 35 = (5, false) ∧
    Card.nearestUtility.apply 12 = (28, false) ∧
    Card.nearestUtility.apply 28 = (12, false) := by
  refine ⟨?_, ?_, by decide, by decide, by decide, by decide⟩
  · simp [Card.apply, findAhead_railroad]
  · simp [Card.apply, findAhead_utility]

/-- C3 witness at p = 5. -/
theorem C3_witness :
    Card.nearestRailroad.apply 5 =
      (if 5 < 5 then 5 else if 5 < 15 then 15 else if 5 < 25 then 25
        else if 5 < 35 then 35 else 5, false) ∧
    Card.nearestUtility.apply 5 =
      (if 5 < 12 then 12 else if 5 < 28 then 28 else 12, false) ∧
    Card.nearestRailroad.apply 5 = (15, false) ∧
    Card.nearestRailroad.apply 35 = (5, false) ∧
    Card.nearestUtility.apply 12 = (28, false) ∧
    Card.nearestUtility.apply 28 = (12, false) :=
  C3 5 (by norm_num)

/-- C4: in a free-state turn, a doubles roll that is the third
consecutive double sends the player to jail: the returned state is
exactly `send_to_jail` (position = Jail index 10, jailed,
jail counters reset), the roll's movement is never applied, and the
decks are untouched (no landing resolution runs). -/
theorem C4 (fuel : Nat) (p : Player) (d1 d2 : Nat) (cd ccd : DeckState)
    (hfree : p.in_jail = false) (hdbl : d1 = d2) (hcd2 : p.consecutive_doubles = 2) :
    p.take_turn fuel d1 d2 cd ccd = some (p.send_to_jail, cd, ccd) ∧
    p.send_to_jail.position = JAIL_SPACE ∧
    p.send_to_jail.in_jail = true ∧
    p.send_to_jail.jail_turns = 0 ∧
    p.send_to_jail.consecutive_doubles = 0 := by
  subst hdbl
  refine ⟨?_, rfl, rfl, rfl, rfl⟩
  simp [Player.take_turn, Player.send_to_jail, hfree, hcd2]

/-- C4 witness: the player `pD` (two consecutive doubles already rolled)
rolls (3,3) and lands in jail with the decks untouched. -/
theorem C4_witness :
    pD.take_turn 4 3 3 dsChance dsChest = some (pD.send_to_jail, dsChance, dsChest) ∧
    pD.send_to_jail.position = JAIL_SPACE ∧
    pD.send_to_jail.in_jail = true ∧
    pD.send_to_jail.jail_turns = 0 ∧
    pD.send_to_jail.consecutive_doubles = 0 :=
  C4 4 pD 3 3 dsChance dsChest rfl rfl rfl

/-- C5: jail-stint bounds.  For a turn that begins jailed: under any
policy other than "B" (i.e. policy A), if the turn ends jailed with a
non-zero jail counter then it was a stay that merely incremented the
counter, and the incremented counter is below 3 — so a stint (which
starts at counter 0) stays at most twice and is released by its third
turn; moreover a turn starting with counter 2 always ends released or
freshly re-jailed at counter 0.  Under policy "B" the jail handler
releases the player unconditionally with the full dice total, and any
jail state at the end of the turn is a fresh jailing (counter 0) from
that same turn. -/
theorem C5 (fuel : Nat) (p o : Player) (d1 d2 : Nat) (cd ccd cd' ccd' : DeckState)
    (hj : p.in_jail = true)
    (hstep : p.take_turn fuel d1 d2 cd ccd = some (o, cd', ccd')) :
    (¬ p.jail_strategy = "B" →
      ((o.in_jail = true → o.jail_turns ≠ 0 →
          o = { p with jail_turns := p.jail_turns + 1 } ∧ p.jail_turns + 1 < 3) ∧
        (p.jail_turns = 2 → o.in_jail = false ∨ o.jail_turns = 0))) ∧
    (p.jail_strategy = "B" →
      ((p.handle_jail_turn d1 d2).1.in_jail = false ∧
        (p.handle_jail_turn d1 d2).2 = some (d1 + d2) ∧
        (o.in_jail = true → o.jail_turns = 0))) := by
  simp only [Player.take_turn] at hstep
  rw [if_pos hj] at hstep
  rcases hh : p.handle_jail_turn d1 d2 with ⟨p2, m⟩
  rw [hh] at hstep
  rcases m with _ | t
  · obtain ⟨hB, hp2, hlt⟩ := handle_stay hh
    replace hstep : some (p2, cd, ccd) = some (o, cd', ccd') := hstep
    simp only [Option.some.injEq, Prod.mk.injEq] at hstep
    obtain ⟨rfl, rfl, rfl⟩ := hstep
    subst hp2
    constructor
    · intro _
      refine ⟨fun _ _ => ⟨rfl, hlt⟩, ?_⟩
      intro h2
      exact absurd h2 (by omega)
    · intro hB'
      exact absurd hB' hB
  · obtain ⟨hp2, ht⟩ := handle_release hh
    subst ht
    subst hp2
    replace hstep : process_landing fuel
        (({ p with in_jail := false, jail_turns := 0 } : Player).move_forward (d1 + d2))
        cd ccd = some (o, cd', ccd') := hstep
    have hja := process_landing_jail fuel _ cd ccd o cd' ccd' hstep
    have hnj : o.in_jail = true → o.jail_turns = 0 := by
      intro ho
      rcases hja with ⟨hj1, _⟩ | ⟨_, hj0⟩
      · rw [ho] at hj1
        simp [Player.move_forward] at hj1
      · exact hj0
    constructor
    · intro _
      constructor
      · intro ho hne
        exact absurd (hnj ho) hne
      · intro _
        rcases hja with ⟨hj1, _⟩ | ⟨_, hj0⟩
        · left
          rw [hj1]
          rfl
        · right
          exact hj0
    · intro _
      exact ⟨rfl, rfl, hnj⟩

/-- C5 witness: the jailed policy-A player `pJ` (counter 0) rolls a
non-doubles (1,2) and stays, ending as `pJ1` with counter 1. -/
theorem C5_witness :
    (¬ pJ.jail_strategy = "B" →
      ((pJ1.in_jail = true → pJ1.jail_turns ≠ 0 →
          pJ1 = { pJ with jail_turns := pJ.jail_turns + 1 } ∧ pJ.jail_turns + 1 < 3) ∧
        (pJ.jail_turns = 2 → pJ1.in_jail = false ∨ pJ1.jail_turns = 0))) ∧
    (pJ.jail_strategy = "B" →
      ((pJ.handle_jail_turn 1 2).1.in_jail = false ∧
        (pJ.handle_jail_turn 1 2).2 = some (1 + 2) ∧
        (pJ1.in_jail = true → pJ1.jail_turns = 0))) :=
  C5 4 pJ pJ1 1 2 dsChance dsChest dsChance dsChest rfl rfl

/-- C6: starting from the initial player at Go, after any number of
turns with any dice and well-formed decks, the resulting position lies
in [0,39]; counters outside [0,39] are never incremented, so every
recorded landing index is on the board. -/
theorem C6 (fuel : Nat) (s : String) (rolls : Nat → Nat × Nat) (n : Nat)
    (cd ccd : DeckState) (counts : Nat → Nat)
    (o : Player) (cd' ccd' : DeckState) (counts' : Nat → Nat)
    (hcd : cd.wf chance_card_list) (hccd : ccd.wf community_chest_card_list)
    (h : run_turns fuel rolls n (Player.init s) cd ccd counts =
      some (o, cd', ccd', counts')) :
    o.position < 40 ∧ (∀ j, 40 ≤ j → counts' j = counts j) := by
  have hall := run_turns_post fuel rolls n (Player.init s) cd ccd counts o cd' ccd' counts'
    (by norm_num [Player.init, GO_SPACE]) hcd hccd h
  exact ⟨hall.1, hall.2.2.2.2.2⟩

/-- C6 witness: one (1,2) turn from Go ends on position 3 < 40 and the
counters above 39 are untouched. -/
theorem C6_witness :
    pAfter.position < 40 ∧ (∀ j, 40 ≤ j → c1cex j = 0) :=
  C6 4 "A" (fun _ => (1, 2)) 1 dsChance dsChest (fun _ => 0) pAfter dsChance dsChest c1cex
    dsChance_wf dsChest_wf rfl

/-- C7: for every completed run with positive iteration and turn counts
and well-formed randomness, the 40 landing counters sum to
iterations × turns-per-iteration (each turn increments exactly one
counter), and the normalized probabilities sum to exactly 1. -/
theorem C7 (fuel : Nat) (n t : Int) (s : String) (env : Nat → IterEnv)
    (counts : Nat → Nat)
    (hn : 0 < n) (ht : 0 < t) (henv : ∀ i, (env i).wf)
    (h : run_simulation fuel n t s env = some counts) :
    (∑ j in Finset.range 40, counts j) = n.toNat * t.toNat ∧
    (∑ j in Finset.range 40, calculate_probabilities counts j) = 1 := by
  have hsum := run_iters_post fuel t.toNat s env henv n.toNat (fun _ => 0) counts h
  have h1 : (∑ j in Finset.range 40, counts j) = n.toNat * t.toNat := by
    simpa using hsum
  refine ⟨h1, ?_⟩
  have hne : ((∑ j in Finset.range 40, counts j : Nat) : ℚ) ≠ 0 := by
    rw [h1]
    exact Nat.cast_ne_zero.mpr (Nat.mul_ne_zero (by omega) (by omega))
  simp only [calculate_probabilities]
  rw [← Finset.sum_div, ← Nat.cast_sum]
  exact div_self hne

/-- C7 witness: a 1-iteration, 1-turn run: one counter is incremented,
the counters sum to 1, and the probabilities sum to 1. -/
theorem C7_witness :
    (∑ j in Finset.range 40, c1cex j) = (1 : Int).toNat * (1 : Int).toNat ∧
    (∑ j in Finset.range 40, calculate_probabilities c1cex j) = 1 :=
  C7 4 1 1 "A" cenv c1cex (by norm_num) (by norm_num) cenv_wf rfl

/-- C8: drawing from any reachable deck state (well-formed with a
non-empty original card list) always succeeds: when the pile is empty it
is first refilled from the original multiset and reshuffled, so the
pop-from-empty branch is unreachable; the drawn card comes from the
original multiset and the invariant is preserved, so every later draw
succeeds as well. -/
theorem C8 (ds : DeckState) (orig : List Card) (hwf : ds.wf orig) (hne : orig ≠ []) :
    ∃ c ds', ds.draw = some (c, ds') ∧ c ∈ orig ∧ ds'.wf orig := by
  obtain ⟨c, ds', hd⟩ := DeckState.draw_some hwf hne
  obtain ⟨hc, hwf'⟩ := DeckState.draw_wf hwf hd
  exact ⟨c, ds', hd, hc, hwf'⟩

/-- C8 witness: the fresh Chance deck draws successfully. -/
theorem C8_witness :
    ∃ c ds', dsChance.draw = some (c, ds') ∧ c ∈ chance_card_list ∧
      ds'.wf chance_card_list :=
  C8 dsChance chance_card_list dsChance_wf (by decide)

/-- C9: landing resolution terminates for every starting position in
[0,39] and every reachable (well-formed) deck pair within recursion
depth 3: with fuel at least 3 the fuel-exhaustion branch is never
taken.  The only chain through a second card space is Go Back 3 drawn
on Chance space 36, which lands on Community Chest 33, whose
position-affecting cards target only Go or Jail. -/
theorem C9 (fuel : Nat) (p : Player) (cd ccd : DeckState)
    (hp : p.position < 40) (hcd : cd.wf chance_card_list)
    (hccd : ccd.wf community_chest_card_list) (hfuel : 3 ≤ fuel) :
    (process_landing fuel p cd ccd).isSome = true := by
  obtain ⟨k, rfl⟩ : ∃ k, fuel = k + 1 + 1 + 1 := ⟨fuel - 3, by omega⟩
  by_cases h30 : p.position = GO_TO_JAIL_SPACE
  · simp [process_landing_succ, h30]
  · by_cases hch : is_chance p.position = true
    · have hpos : p.position = 7 ∨ p.position = 22 ∨ p.position = 36 := by
        rw [is_chance_eq] at hch
        simpa using hch
      exact landing_chance_some k p cd ccd hpos hcd hccd
    · by_cases hcc : is_community_chest p.position = true
      · have hpos : p.position = 2 ∨ p.position = 17 ∨ p.position = 33 := by
          rw [is_community_chest_eq] at hcc
          simpa using hcc
        exact landing_chest_some (k + 1) p cd ccd hpos hcd hccd
      · rw [landing_plain (k + 1 + 1) p cd ccd h30 (by simpa using hch) (by simpa using hcc)]
        rfl

/-- C9 witness: landing on Chance space 36 (the deepest chain) with
fresh decks and fuel 3 resolves. -/
theorem C9_witness : (process_landing 3 p36 dsChance dsChest).isSome = true :=
  C9 3 p36 dsChance dsChest (by norm_num [p36]) dsChance_wf dsChest_wf (by norm_num)

/-- C10: for every policy string other than "B", a player behaves on
every turn exactly like the same player with policy "A": construction
agrees (`Player.init s` is the "A" player with the string swapped), and
one turn from any state produces the policy-"A" result with only the
stored policy string differing. -/
theorem C10 (s : String) (hs : s ≠ "B") (p : Player) (fuel d1 d2 : Nat)
    (cd ccd : DeckState) :
    Player.init s = (Player.init "A").with_strategy s ∧
    (p.with_strategy s).take_turn fuel d1 d2 cd ccd =
      ((p.with_strategy "A").take_turn fuel d1 d2 cd ccd).map
        (fun r => (r.1.with_strategy s, r.2)) :=
  ⟨rfl, take_turn_strategy fuel p d1 d2 cd ccd s hs⟩

/-- C10 witness at the invalid policy string "X". -/
theorem C10_witness :
    Player.init "X" = (Player.init "A").with_strategy "X" ∧
    ((Player.init "A").with_strategy "X").take_turn 4 1 2 dsChance dsChest =
      (((Player.init "A").with_strategy "A").take_turn 4 1 2 dsChance dsChest).map
        (fun r => (r.1.with_strategy "X", r.2)) :=
  C10 "X" (by decide) (Player.init "A") 4 1 2 dsChance dsChest

end Monopoly
